import Mathlib

/-!
Verification of the tsuru job-lifecycle saga (`job/actions.go`) against its
specification.  The concrete saga actions (provision, trigger, update,
insert, quota reservations) are shallowly embedded from the Go source;
the external collaborators (job store, quota ledger, user directory,
provisioning driver) and the pipeline executor, which are not part of the
sources under verification, are modelled from the specification's contracts.
-/

set_option autoImplicit false

namespace Tsuru

/-- Errors surfaced by the saga: parameter-validation errors of the
actions, the store's classified errors (`ErrJobNotFound`,
`ErrJobAlreadyExists`), lower-level collaborator failures, and the
executor's too-few-parameters validation error. -/
inductive JobError where
  | invalidParam (msg : String)
  | jobNotFound
  | jobAlreadyExists
  | storeError
  | collectionError
  | insertError
  | replaceError
  | provisionerError
  | driverError
  | quotaExceeded
  | userNotFound
  | fewParameters
deriving DecidableEq, Repr

/-- A job record (`jobTypes.Job`): identity is the unique `name`; the
team owner and pool drive quota accounting and provisioning; `payload`
abstracts the remaining fields (container spec, schedule, manifest) that
only matter for structural equality (`reflect.DeepEqual`). -/
structure Job where
  name : String
  teamOwner : String
  pool : String
  payload : Nat
deriving DecidableEq, Repr

/-- A user identity (`authTypes.User`): the email is the quota key;
`fromToken` marks an identity derived from a shared team token. -/
structure User where
  email : String
  fromToken : Bool
deriving DecidableEq, Repr

/-- A pipeline parameter (`ctx.Params` entries are `interface{}` values;
the actions accept a `*Job`, a `User`/`*User`, or reject anything else). -/
inductive Param where
  | jobP (j : Job)
  | userP (u : User)
  | otherP
deriving DecidableEq, Repr

/-- An action's forward result (`action.Result` is `interface{}`):
`nil`, a `*jobTypes.Job`, or a `map[string]string`. -/
inductive ActionResult where
  | nothing
  | jobRes (j : Job)
  | mapRes (m : List (String × String))
deriving DecidableEq, Repr

/-- Lookup in an association list by key (first match wins, as in a
store keyed by unique name). -/
def alookup {α : Type} : List (String × α) → String → Option α
  | [], _ => none
  | (k, v) :: rest, key => if k = key then some v else alookup rest key

/-- Replace the value stored under `key`; insert nothing if absent
(MongoDB `ReplaceOne` without upsert). -/
def areplace {α : Type} : List (String × α) → String → α → List (String × α)
  | [], _, _ => []
  | (k, w) :: rest, key, v =>
      if k = key then (key, v) :: rest else (k, w) :: areplace rest key v

/-- Set the value stored under `key`, inserting it if absent (used by the
quota ledger's usage counters). -/
def aset {α : Type} : List (String × α) → String → α → List (String × α)
  | [], key, v => [(key, v)]
  | (k, w) :: rest, key, v =>
      if k = key then (key, v) :: rest else (k, w) :: aset rest key v

/-- Remove every record stored under `key` (MongoDB delete by name). -/
def aremove {α : Type} : List (String × α) → String → List (String × α)
  | [], _ => []
  | (k, w) :: rest, key =>
      if k = key then aremove rest key else (k, w) :: aremove rest key

/-- Modelled from the spec: the Job Store Adapter (`storagev2` jobs
collection plus `servicemanager.Job`'s lookup), which is an external
collaborator.  `records` maps job names to records; `writeCount` counts
issued writes (inserts and replaces) as the spec's write-counter fake does;
`readFaults` is a per-call fault-injection queue for `GetByName`
(a `true` entry makes that read fail with a lower-level store error,
letting transient and persistent read failures be distinguished); the
remaining flags inject failures of `JobsCollection`, `InsertOne` and
`ReplaceOne`. -/
structure StoreState where
  records : List (String × Job)
  writeCount : Nat
  readFaults : List Bool
  collectionFault : Bool
  insertFault : Bool
  replaceFault : Bool
deriving DecidableEq, Repr

/-- Modelled from the spec: `GetByName(name) → (job, notFoundError|otherError)`.
Consumes one entry of the read-fault queue; a faulted call fails with a
lower-level store error, otherwise the result reflects the records. -/
def getByName (s : StoreState) (name : String) : StoreState × Except JobError Job :=
  match s.readFaults with
  | fault :: rest =>
      let s1 := { s with readFaults := rest }
      if fault then (s1, .error .storeError)
      else
        match alookup s1.records name with
        | some j => (s1, .ok j)
        | none => (s1, .error .jobNotFound)
  | [] =>
      match alookup s.records name with
      | some j => (s, .ok j)
      | none => (s, .error .jobNotFound)

/-- Modelled from the spec: the store's insert (`collection.InsertOne`).
A write is issued (counted) even when the store then rejects it. -/
def insertOne (s : StoreState) (j : Job) : StoreState × Option JobError :=
  let s1 := { s with writeCount := s.writeCount + 1 }
  if s1.insertFault then (s1, some .insertError)
  else ({ s1 with records := (j.name, j) :: s1.records }, none)

/-- Modelled from the spec: the store's replace-by-name
(`collection.ReplaceOne` filtered on the job name, no upsert).
A write is issued (counted) even when the store then rejects it. -/
def replaceOne (s : StoreState) (name : String) (j : Job) : StoreState × Option JobError :=
  let s1 := { s with writeCount := s.writeCount + 1 }
  if s1.replaceFault then (s1, some .replaceError)
  else ({ s1 with records := areplace s1.records name j }, none)

/-- Modelled from the spec: `RemoveByName` (`servicemanager.Job.RemoveJob`). -/
def removeByName (s : StoreState) (name : String) : StoreState :=
  { s with records := aremove s.records name, writeCount := s.writeCount + 1 }

/-- Embedding of `insertJobDB` from `job/actions.go`: obtain the collection, look the
name up; on not-found insert, on a successful lookup fail with
already-exists, otherwise propagate the lookup error. -/
def insertJobDB (s : StoreState) (job : Job) : StoreState × Option JobError :=
  if s.collectionFault then (s, some .collectionError)
  else
    let (s1, r) := getByName s job.name
    match r with
    | .error .jobNotFound => insertOne s1 job
    | .error e => (s1, some e)
    | .ok _ => (s1, some .jobAlreadyExists)

/-- Embedding of `updateJobDB` from `job/actions.go`: obtain the collection, read the
current record (propagating a read failure), skip the write when the new
record is structurally identical (`reflect.DeepEqual`), otherwise replace. -/
def updateJobDB (s : StoreState) (job : Job) : StoreState × Option JobError :=
  if s.collectionFault then (s, some .collectionError)
  else
    let (s1, r) := getByName s job.name
    match r with
    | .error e => (s1, some e)
    | .ok oldJob =>
        if oldJob = job then (s1, none)
        else replaceOne s1 job.name job

/-- Modelled from the spec: the Quota Ledger Adapter.  `usage` maps an
entity identifier to its current counter; `limit` maps it to its ceiling
(an absent entry means unlimited). -/
structure Ledger where
  usage : List (String × Int)
  limit : List (String × Int)
deriving DecidableEq, Repr

/-- Current usage of an entity (zero when never charged). -/
def Ledger.usageOf (l : Ledger) (k : String) : Int :=
  (alookup l.usage k).getD 0

/-- Modelled from the spec: `Increment(entityKind, entityID, delta)` —
fails when the resulting usage would exceed the entity's ceiling and
`delta > 0`; never fails for `delta < 0`. -/
def Ledger.inc (l : Ledger) (k : String) (delta : Int) : Ledger × Option JobError :=
  let cur := l.usageOf k
  let over :=
    decide (0 < delta) &&
      (match alookup l.limit k with
       | some lim => decide (lim < cur + delta)
       | none => false)
  if over then (l, some .quotaExceeded)
  else ({ l with usage := aset l.usage k (cur + delta) }, none)

/-- Modelled from the spec: the User/Team Directory.  Users are found by
their email field; `fault` injects a lookup failure. -/
structure Directory where
  users : List User
  fault : Bool
deriving DecidableEq, Repr

/-- Modelled from the spec: `LookupUserByEmail` (`auth.GetUserByEmail`). -/
def getUserByEmail (d : Directory) (email : String) : Except JobError User :=
  if d.fault then .error .storeError
  else
    match d.users.find? (fun u => u.email = email) with
    | some u => .ok u
    | none => .error .userNotFound

/-- Modelled from the spec: the Provisioning Driver, an external
collaborator.  Calls are recorded so invocation counts and arguments can
be observed; the fault flags inject failures of provisioner resolution
(`getProvisioner`), `EnsureJob` and `TriggerCron`. -/
structure ProvState where
  ensureCalls : List Job
  destroyCalls : List Job
  triggerCalls : List (Job × String)
  updateProvCalls : List Job
  resolveFault : Bool
  ensureFault : Bool
  triggerFault : Bool
  updateProvFault : Bool
deriving DecidableEq, Repr

/-- The world a pipeline invocation acts on: the job store, the two quota
ledgers (teams keyed by team name, users keyed by email), the user
directory and the provisioning driver. -/
structure World where
  store : StoreState
  teamQuota : Ledger
  userQuota : Ledger
  dir : Directory
  prov : ProvState
deriving DecidableEq, Repr

/-- An Action (`action.Action`): a named forward operation taking the
world, the original parameter list and the previous step's result, an
optional compensating backward operation taking the world, the original
parameters and this step's own recorded forward result, and the declared
minimum parameter count. -/
structure Action where
  name : String
  forward : World → List Param → ActionResult → World × Except JobError ActionResult
  backward : Option (World → List Param → ActionResult → World)
  minParams : Nat

/-- Embedding of `provisionJob.Forward`: the first parameter must be a job; resolve
the provisioner for it, then call `EnsureJob`, returning a nil result. -/
def provisionJobForward (w : World) (params : List Param) (_prev : ActionResult) :
    World × Except JobError ActionResult :=
  match params.get? 0 with
  | some (.jobP j) =>
      if w.prov.resolveFault then (w, .error .provisionerError)
      else
        let w1 := { w with prov := { w.prov with ensureCalls := w.prov.ensureCalls ++ [j] } }
        if w1.prov.ensureFault then (w1, .error .driverError)
        else (w1, .ok .nothing)
  | _ => (w, .error (.invalidParam "first parameter must be *Job"))

/-- Embedding of `provisionJob.Backward`: if the first parameter is a job and the
provisioner resolves, call `DestroyJob` (its error is ignored). -/
def provisionJobBackward (w : World) (params : List Param) (_res : ActionResult) : World :=
  match params.get? 0 with
  | some (.jobP j) =>
      if w.prov.resolveFault then w
      else { w with prov := { w.prov with destroyCalls := w.prov.destroyCalls ++ [j] } }
  | _ => w

/-- The `provision-job` action. -/
def provisionJob : Action :=
  { name := "provision-job"
    forward := provisionJobForward
    backward := some provisionJobBackward
    minParams := 1 }

/-- Embedding of `triggerCron.Forward`: the first parameter must be a job; resolve the
provisioner, then call `TriggerCron(job, job.Pool)`, returning a nil
result and the driver call's error. -/
def triggerCronForward (w : World) (params : List Param) (_prev : ActionResult) :
    World × Except JobError ActionResult :=
  match params.get? 0 with
  | some (.jobP j) =>
      if w.prov.resolveFault then (w, .error .provisionerError)
      else
        let w1 := { w with prov := { w.prov with triggerCalls := w.prov.triggerCalls ++ [(j, j.pool)] } }
        if w1.prov.triggerFault then (w1, .error .driverError)
        else (w1, .ok .nothing)
  | _ => (w, .error (.invalidParam "first parameter must be *Job"))

/-- The `trigger-cronjob` action: it defines no backward operation. -/
def triggerCron : Action :=
  { name := "trigger-cronjob"
    forward := triggerCronForward
    backward := none
    minParams := 1 }

/-- Embedding of `updateJobProv.Forward`: the first parameter must be a job; call the
driver's `UpdateJobProv`, returning a nil result. -/
def updateJobProvForward (w : World) (params : List Param) (_prev : ActionResult) :
    World × Except JobError ActionResult :=
  match params.get? 0 with
  | some (.jobP j) =>
      let w1 := { w with prov := { w.prov with updateProvCalls := w.prov.updateProvCalls ++ [j] } }
      if w1.prov.updateProvFault then (w1, .error .driverError)
      else (w1, .ok .nothing)
  | _ => (w, .error (.invalidParam "first parameter must be *Job"))

/-- The `update-job` action: it defines no backward operation. -/
def updateJobProv : Action :=
  { name := "update-job"
    forward := updateJobProvForward
    backward := none
    minParams := 1 }

/-- Embedding of `jobUpdateDB.Forward`: the first parameter must be a job; read the
currently stored record; whether or not that read succeeds, run
`updateJobDB`; on success the recorded result is the old record when the
read produced one, or nil when it did not. -/
def jobUpdateDBForward (w : World) (params : List Param) (_prev : ActionResult) :
    World × Except JobError ActionResult :=
  match params.get? 0 with
  | some (.jobP j) =>
      let (st1, r) := getByName w.store j.name
      match r with
      | .error _ =>
          let (st2, e2) := updateJobDB st1 j
          let w2 := { w with store := st2 }
          match e2 with
          | some err => (w2, .error err)
          | none => (w2, .ok .nothing)
      | .ok oldJob =>
          let (st2, e2) := updateJobDB st1 j
          let w2 := { w with store := st2 }
          match e2 with
          | some err => (w2, .error err)
          | none => (w2, .ok (.jobRes oldJob))
  | _ => (w, .error (.invalidParam "first parameter must be *Job"))

/-- Embedding of `jobUpdateDB.Backward`: if the recorded forward result is nil or not
a job record, do nothing; otherwise write the old record back via
`updateJobDB` (a failure of that write is only logged). -/
def jobUpdateDBBackward (w : World) (_params : List Param) (res : ActionResult) : World :=
  match res with
  | .jobRes oldJob => { w with store := (updateJobDB w.store oldJob).1 }
  | _ => w

/-- The `update-job-db` action. -/
def jobUpdateDB : Action :=
  { name := "update-job-db"
    forward := jobUpdateDBForward
    backward := some jobUpdateDBBackward
    minParams := 1 }

/-- Embedding of `insertJob.Forward`: the first parameter must be a job; run
`insertJobDB` and on success record the inserted job as the result. -/
def insertJobForward (w : World) (params : List Param) (_prev : ActionResult) :
    World × Except JobError ActionResult :=
  match params.get? 0 with
  | some (.jobP j) =>
      let (st1, e) := insertJobDB w.store j
      let w1 := { w with store := st1 }
      match e with
      | some err => (w1, .error err)
      | none => (w1, .ok (.jobRes j))
  | _ => (w, .error (.invalidParam "first parameter must be *Job"))

/-- Embedding of `insertJob.Backward`: remove the job recorded in the forward result
(the Go code's type assertion panics on a non-job result; the executor
treats a panicking backward as a best-effort failure, so that case is a
no-op on the world). -/
def insertJobBackward (w : World) (_params : List Param) (res : ActionResult) : World :=
  match res with
  | .jobRes j => { w with store := removeByName w.store j.name }
  | _ => w

/-- The `insert-job` action. -/
def insertJob : Action :=
  { name := "insert-job"
    forward := insertJobForward
    backward := some insertJobBackward
    minParams := 1 }

/-- Embedding of `reserveTeamCronjob.Forward`: the first parameter must be a job;
increment the owning team's quota by one; on success the recorded result
is the map with the job name and the team name. -/
def reserveTeamCronjobForward (w : World) (params : List Param) (_prev : ActionResult) :
    World × Except JobError ActionResult :=
  match params.get? 0 with
  | some (.jobP j) =>
      let (led, e) := w.teamQuota.inc j.teamOwner 1
      let w1 := { w with teamQuota := led }
      match e with
      | some err => (w1, .error err)
      | none => (w1, .ok (.mapRes [("job", j.name), ("team", j.teamOwner)]))
  | _ => (w, .error (.invalidParam "first parameter must be *Job"))

/-- Embedding of `reserveTeamCronjob.Backward`: if the recorded result is a map
carrying a team key, decrement that team's quota by one (the Go type
assertion panics on a non-map result; the executor treats that as a
best-effort failure, so that case is a no-op). -/
def reserveTeamCronjobBackward (w : World) (_params : List Param) (res : ActionResult) : World :=
  match res with
  | .mapRes m =>
      match alookup m "team" with
      | some teamStr => { w with teamQuota := (w.teamQuota.inc teamStr (-1)).1 }
      | none => w
  | _ => w

/-- The `reserve-team-job` action. -/
def reserveTeamCronjob : Action :=
  { name := "reserve-team-job"
    forward := reserveTeamCronjobForward
    backward := some reserveTeamCronjobBackward
    minParams := 2 }

/-- Embedding of `reserveUserCronjob.Forward`: the first parameter must be a job and
the second a user; an identity derived from a team token is exempt —
no increment, and the recorded map carries no user key; otherwise
increment the user's quota by one and record the map with the job name
and the user's email. -/
def reserveUserCronjobForward (w : World) (params : List Param) (_prev : ActionResult) :
    World × Except JobError ActionResult :=
  match params.get? 0 with
  | some (.jobP j) =>
      match params.get? 1 with
      | some (.userP user) =>
          if user.fromToken then (w, .ok (.mapRes [("job", j.name)]))
          else
            let (led, e) := w.userQuota.inc user.email 1
            let w1 := { w with userQuota := led }
            match e with
            | some err => (w1, .error err)
            | none => (w1, .ok (.mapRes [("job", j.name), ("user", user.email)]))
      | _ => (w, .error (.invalidParam "second parameter must be auth.User or *auth.User"))
  | _ => (w, .error (.invalidParam "first parameter must be *Job"))

/-- Embedding of `reserveUserCronjob.Backward`: if the recorded result is a map
carrying a user key, resolve that email through the directory; only on a
successful lookup decrement the resolved user's quota by one; on a
failed lookup silently skip the decrement. -/
def reserveUserCronjobBackward (w : World) (_params : List Param) (res : ActionResult) : World :=
  match res with
  | .mapRes m =>
      match alookup m "user" with
      | some email =>
          match getUserByEmail w.dir email with
          | .ok user => { w with userQuota := (w.userQuota.inc user.email (-1)).1 }
          | .error _ => w
      | none => w
  | _ => w

/-- The `reserve-user-cronjob` action. -/
def reserveUserCronjob : Action :=
  { name := "reserve-user-cronjob"
    forward := reserveUserCronjobForward
    backward := some reserveUserCronjobBackward
    minParams := 2 }

/-- Modelled from the spec: the creation pipeline's composition (the
`action.Pipeline` built by the job service, whose file is not among the
sources): reserve team quota, reserve user quota, provision, persist. -/
def createPipeline : List Action :=
  [reserveTeamCronjob, reserveUserCronjob, provisionJob, insertJob]

/-- Modelled from the spec: the update pipeline's composition — notify
the provisioning driver, then replace the stored record. -/
def updatePipeline : List Action :=
  [updateJobProv, jobUpdateDB]

/-- Modelled from the spec: the trigger pipeline's composition — a
single action invoking the driver's scheduled-trigger operation. -/
def triggerPipeline : List Action :=
  [triggerCron]

/-- Outcome of the executor's forward pass: on success, the final world,
the last result and the per-step recorded results; on failure, the world
at the failure, the failing step's error and the results of the steps
that completed (so the failing step's zero-based index is their count). -/
inductive FwOutcome where
  | success (w : World) (res : ActionResult) (results : List ActionResult)
  | failure (w : World) (e : JobError) (results : List ActionResult)
deriving DecidableEq, Repr

/-- Modelled from the spec: the executor's forward pass — invoke each
action's forward operation in sequence, supplying the full original
parameter list plus the most recent prior forward result (nil for the
first action), recording each result; stop at the first failure. -/
def runForward (params : List Param) :
    List Action → World → ActionResult → List ActionResult → FwOutcome
  | [], w, prev, results => .success w prev results
  | a :: rest, w, prev, results =>
      match a.forward w params prev with
      | (w1, .error e) => .failure w1 e results
      | (w1, .ok res) => runForward params rest w1 res (results ++ [res])

/-- Modelled from the spec: the executor's compensation pass — visit the
given step indices in order, and for each step that defines a backward
operation, call it with the original parameters and that step's own
recorded forward result.  Also returns the indices whose backward was
actually invoked, in invocation order, so compensation traces can be
stated. -/
def rollback (acts : List Action) (params : List Param) (results : List ActionResult) :
    List Nat → World → World × List Nat
  | [], w => (w, [])
  | i :: rest, w =>
      match acts.get? i with
      | none => rollback acts params results rest w
      | some a =>
          match a.backward with
          | none => rollback acts params results rest w
          | some b =>
              let w1 := b w params ((results.get? i).getD .nothing)
              let (w2, tr) := rollback acts params results rest w1
              (w2, i :: tr)

/-- Whether the pipeline's step at a zero-based index defines a backward
operation. -/
def hasBackward (acts : List Action) (i : Nat) : Bool :=
  match acts.get? i with
  | some a => a.backward.isSome
  | none => false

/-- The zero-based index of the step at which the forward pass failed
(the number of steps that completed), if it failed. -/
def failIndex : FwOutcome → Option Nat
  | .failure _ _ results => some results.length
  | .success _ _ _ => none

/-- Modelled from the spec: the Pipeline Executor — validate every
action's declared minimum parameter count up front (a validation failure
fails the whole run with no compensation, nothing having run); then run
the forward pass; on a forward failure at step `k`, compensate steps
`k-1, …, 0` in that order and return the original forward error.  The
third component is the compensation trace: the zero-based indices whose
backward operation was invoked, in invocation order. -/
def execute (acts : List Action) (params : List Param) (w : World) :
    World × Except JobError ActionResult × List Nat :=
  if acts.any (fun a => params.length < a.minParams) then
    (w, .error .fewParameters, [])
  else
    match runForward params acts w .nothing [] with
    | .success w1 res _ => (w1, .ok res, [])
    | .failure w1 e results =>
        let (w2, tr) := rollback acts params results ((List.range results.length).reverse) w1
        (w2, .error e, tr)

/-! ### Concrete fixtures used to instantiate the theorems -/

/-- A store with no records, no injected faults and a zero write counter. -/
def emptyStore : StoreState := ⟨[], 0, [], false, false, false⟩

/-- A ledger with no usage and no ceilings (every entity unlimited). -/
def emptyLedger : Ledger := ⟨[], []⟩

/-- A driver with no recorded calls and no injected faults. -/
def emptyProv : ProvState := ⟨[], [], [], [], false, false, false, false⟩

/-- An empty directory with no injected lookup fault. -/
def emptyDir : Directory := ⟨[], false⟩

/-- A fault-free world with empty store, ledgers and directory. -/
def baseWorld : World := ⟨emptyStore, emptyLedger, emptyLedger, emptyDir, emptyProv⟩

/-- A sample job owned by team `t1` on pool `p1`. -/
def jAlpha : Job := ⟨"alpha", "t1", "p1", 0⟩

/-- A sample individual (non-token) user. -/
def uBob : User := ⟨"bob", false⟩

/-- A world in which the driver's `EnsureJob` fails, so the creation
pipeline's third step fails its forward call. -/
def wCreateFail : World :=
  { baseWorld with prov := { emptyProv with ensureFault := true } }

/-! ### The executor's compensation trace -/

/-- The compensation pass invokes exactly the visited steps that define a
backward operation, in visitation order. -/
theorem rollback_trace (acts : List Action) (params : List Param)
    (results : List ActionResult) :
    ∀ (l : List Nat) (w : World),
      (rollback acts params results l w).2 = l.filter (hasBackward acts) := by
  intro l
  induction l with
  | nil => intro w; rfl
  | cons i rest ih =>
      intro w
      cases hga : acts[i]? with
      | none => simp [rollback, List.get?_eq_getElem?, hga, List.filter, hasBackward, ih]
      | some a =>
          cases hb : a.backward with
          | none => simp [rollback, List.get?_eq_getElem?, hga, hb, List.filter, hasBackward, ih]
          | some b => simp [rollback, List.get?_eq_getElem?, hga, hb, List.filter, hasBackward, ih]

/-- C1: for every pipeline, parameter list and world, if the forward pass
fails at the step with zero-based index `k` (the 1-indexed step `k+1`,
its predecessors all having completed), then the executor's compensation
trace is exactly the indices `k-1, …, 0` restricted to steps that define
a backward operation — so each such predecessor's backward is invoked
exactly once, in strict reverse order — the failing step's backward is
never invoked, and when every predecessor defines a backward operation
the trace is exactly `k-1, …, 0`. -/
theorem c1_reverse_order_compensation (acts : List Action) (params : List Param)
    (w : World) (k : Nat)
    (hval : (acts.any (fun a => params.length < a.minParams)) = false)
    (hfail : failIndex (runForward params acts w .nothing []) = some k) :
    (execute acts params w).2.2 = ((List.range k).reverse).filter (hasBackward acts)
      ∧ k ∉ (execute acts params w).2.2
      ∧ ((∀ i, i < k → hasBackward acts i = true) →
          (execute acts params w).2.2 = (List.range k).reverse) := by
  cases ho : runForward params acts w ActionResult.nothing [] with
  | success w1 res results =>
      rw [ho] at hfail
      simp [failIndex] at hfail
  | failure w1 e results =>
      rw [ho] at hfail
      simp only [failIndex, Option.some.injEq] at hfail
      have htr : (execute acts params w).2.2 =
          ((List.range k).reverse).filter (hasBackward acts) := by
        simp only [execute, hval, Bool.false_eq_true, if_false, ho, hfail]
        exact rollback_trace acts params results ((List.range k).reverse) w1
      refine ⟨htr, ?_, ?_⟩
      · intro hmem
        rw [htr] at hmem
        have hk := List.mem_reverse.mp (List.mem_filter.mp hmem).1
        exact absurd (List.mem_range.mp hk) (Nat.lt_irrefl k)
      · intro hall
        rw [htr]
        refine List.filter_eq_self.mpr ?_
        intro i hi
        exact hall i (List.mem_range.mp (List.mem_reverse.mp hi))

/-- Witness for C1: the creation pipeline on a world whose driver fails
`EnsureJob` fails at zero-based step 2; the two quota reservations are
compensated in the order 1, 0 and the failing step is not compensated. -/
theorem c1_reverse_order_compensation_witness :
    (execute createPipeline [Param.jobP jAlpha, Param.userP uBob] wCreateFail).2.2 = [1, 0]
      ∧ 2 ∉ (execute createPipeline [Param.jobP jAlpha, Param.userP uBob] wCreateFail).2.2 := by
  have h := c1_reverse_order_compensation createPipeline
    [Param.jobP jAlpha, Param.userP uBob] wCreateFail 2 rfl rfl
  exact ⟨h.1.trans rfl, h.2.1⟩

/-! ### Association-list and store lemmas -/

/-- Replacing the value under a present key makes the lookup return the
new value. -/
theorem alookup_areplace_self {α : Type} (l : List (String × α)) (key : String)
    (v w : α) (h : alookup l key = some w) :
    alookup (areplace l key v) key = some v := by
  induction l with
  | nil => simp [alookup] at h
  | cons p rest ih =>
      obtain ⟨k, x⟩ := p
      by_cases hk : k = key
      · subst hk
        simp [areplace, alookup]
      · simp only [alookup, if_neg hk] at h
        simp only [areplace, if_neg hk, alookup, if_neg hk]
        exact ih h

/-- Setting a key makes the lookup of that key return the new value. -/
theorem alookup_aset_self {α : Type} (l : List (String × α)) (key : String) (v : α) :
    alookup (aset l key v) key = some v := by
  induction l with
  | nil => simp [aset, alookup]
  | cons p rest ih =>
      obtain ⟨k, x⟩ := p
      by_cases hk : k = key
      · subst hk
        simp [aset, alookup]
      · simp only [aset, if_neg hk, alookup, if_neg hk]
        exact ih

/-- Setting a key leaves the lookup of every other key unchanged. -/
theorem alookup_aset_ne {α : Type} (l : List (String × α)) (key k2 : String) (v : α)
    (h : k2 ≠ key) : alookup (aset l key v) k2 = alookup l k2 := by
  have hne : ¬ key = k2 := fun he => h he.symm
  induction l with
  | nil => simp [aset, alookup, hne]
  | cons p rest ih =>
      obtain ⟨k, x⟩ := p
      by_cases hk : k = key
      · subst hk
        simp [aset, alookup, hne]
      · simp only [aset, if_neg hk, alookup]
        by_cases hk2 : k = k2
        · simp [hk2]
        · simp [if_neg hk2, ih]

/-- A read changes nothing in the store except consuming one entry of the
read-fault queue. -/
theorem getByName_effects (s : StoreState) (n : String) :
    (getByName s n).1.writeCount = s.writeCount
      ∧ (getByName s n).1.records = s.records
      ∧ (getByName s n).1.collectionFault = s.collectionFault
      ∧ (getByName s n).1.insertFault = s.insertFault
      ∧ (getByName s n).1.replaceFault = s.replaceFault := by
  unfold getByName
  cases s.readFaults with
  | nil => cases alookup s.records n <;> simp
  | cons f rest => cases f <;> cases h : alookup s.records n <;> simp [h]

/-- A successful read returns a record that is actually stored under the
looked-up name. -/
theorem getByName_ok_lookup (s : StoreState) (n : String) (s2 : StoreState) (u : Job)
    (h : getByName s n = (s2, .ok u)) : alookup s2.records n = some u := by
  unfold getByName at h
  cases hrf : s.readFaults with
  | nil =>
      rw [hrf] at h
      cases hl : alookup s.records n with
      | none =>
          rw [hl] at h
          exact absurd (congrArg Prod.snd h) (by simp)
      | some x =>
          rw [hl] at h
          rw [Prod.mk.injEq] at h
          obtain ⟨hs, hx⟩ := h
          simp only [Except.ok.injEq] at hx
          subst hx
          rw [← hs]
          exact hl
  | cons f rest =>
      rw [hrf] at h
      cases f with
      | true => exact absurd (congrArg Prod.snd h) (by simp)
      | false =>
          simp only [Bool.false_eq_true, if_false] at h
          cases hl : alookup s.records n with
          | none =>
              rw [hl] at h
              exact absurd (congrArg Prod.snd h) (by simp)
          | some x =>
              rw [hl] at h
              rw [Prod.mk.injEq] at h
              obtain ⟨hs, hx⟩ := h
              simp only [Except.ok.injEq] at hx
              subst hx
              rw [← hs]
              exact hl

/-- A user found by email lookup carries the looked-up email. -/
theorem getUserByEmail_email (d : Directory) (e : String) (u : User)
    (h : getUserByEmail d e = .ok u) : u.email = e := by
  unfold getUserByEmail at h
  by_cases hf : d.fault
  · simp [hf] at h
  · simp only [hf, Bool.false_eq_true, if_false] at h
    cases hfind : d.users.find? (fun x => x.email = e) with
    | none => simp [hfind] at h
    | some x =>
        simp only [hfind, Except.ok.injEq] at h
        subst h
        simpa using List.find?_some hfind

/-! ### Claims about the saga actions -/

/-- C5: for an acting identity derived from a shared team token, the
user-quota reservation's forward operation leaves the world (so every
quota counter) unchanged and records a result whose map carries the job
name but no user key, and the step's backward operation applied to that
recorded result is a no-op on any world. -/
theorem c5_token_user_exempt (w : World) (j : Job) (u : User) (rest : List Param)
    (prev : ActionResult) (hu : u.fromToken = true) :
    reserveUserCronjob.forward w (Param.jobP j :: Param.userP u :: rest) prev
        = (w, .ok (.mapRes [("job", j.name)]))
      ∧ alookup [("job", j.name)] "user" = none
      ∧ (∀ w2 : World,
          reserveUserCronjobBackward w2 (Param.jobP j :: Param.userP u :: rest)
            (.mapRes [("job", j.name)]) = w2) := by
  refine ⟨?_, ?_, ?_⟩
  · simp [reserveUserCronjob, reserveUserCronjobForward, hu]
  · simp [alookup]
  · intro w2
    simp [reserveUserCronjobBackward, alookup]

/-- Witness for C5: a token-derived user at a concrete world. -/
theorem c5_token_user_exempt_witness :
    reserveUserCronjob.forward baseWorld
        [Param.jobP jAlpha, Param.userP ⟨"tok", true⟩] ActionResult.nothing
        = (baseWorld, .ok (.mapRes [("job", "alpha")]))
      ∧ reserveUserCronjobBackward baseWorld
          [Param.jobP jAlpha, Param.userP ⟨"tok", true⟩]
          (.mapRes [("job", "alpha")]) = baseWorld := by
  have h := c5_token_user_exempt baseWorld jAlpha ⟨"tok", true⟩ [] ActionResult.nothing rfl
  exact ⟨h.1, h.2.2 baseWorld⟩

/-- C9: if the update-store step's recorded forward result is nil or not
a job record, its backward operation returns the world unchanged — the
newly written record stays in place and no restore is attempted. -/
theorem c9_update_backward_noop (w : World) (params : List Param) (res : ActionResult)
    (h : ∀ j : Job, res ≠ ActionResult.jobRes j) :
    jobUpdateDB.backward = some jobUpdateDBBackward
      ∧ jobUpdateDBBackward w params res = w := by
  refine ⟨rfl, ?_⟩
  cases res with
  | nothing => rfl
  | jobRes j => exact absurd rfl (h j)
  | mapRes m => rfl

/-- Witness for C9: the backward applied to a nil forward result leaves a
concrete world untouched. -/
theorem c9_update_backward_noop_witness :
    (∀ j : Job, ActionResult.nothing ≠ ActionResult.jobRes j)
      ∧ jobUpdateDBBackward baseWorld [] ActionResult.nothing = baseWorld := by
  have hne : ∀ j : Job, ActionResult.nothing ≠ ActionResult.jobRes j :=
    fun j h => nomatch h
  exact ⟨hne, (c9_update_backward_noop baseWorld [] ActionResult.nothing hne).2⟩

/-- C7: whenever the update-store step's forward operation recorded the
previously stored record, a later pipeline failure drives its backward
operation, which writes that old record back: if the store's collection
and replace calls function, its read queue injects no fault, and a record
is currently stored under the old record's name, then after the backward
runs the stored record under that name is again the old record. -/
theorem c7_update_backward_restores (w : World) (params : List Param) (old cur : Job)
    (hc : w.store.collectionFault = false)
    (hr : w.store.readFaults = [])
    (hf : w.store.replaceFault = false)
    (hl : alookup w.store.records old.name = some cur) :
    alookup (jobUpdateDBBackward w params (ActionResult.jobRes old)).store.records
        old.name = some old := by
  show alookup (updateJobDB w.store old).1.records old.name = some old
  unfold updateJobDB
  simp only [hc, Bool.false_eq_true, if_false]
  have hg : getByName w.store old.name = (w.store, .ok cur) := by
    unfold getByName
    rw [hr, hl]
  rw [hg]
  by_cases heq : cur = old
  · subst heq
    simp [hl]
  · simp only [if_neg heq]
    unfold replaceOne
    simp only [hf, Bool.false_eq_true, if_false]
    exact alookup_areplace_self w.store.records old.name old cur hl

/-- Witness for C7: restoring a concrete old record over a newer one. -/
theorem c7_update_backward_restores_witness :
    alookup (jobUpdateDBBackward
        { baseWorld with store := { emptyStore with records := [("alpha", ⟨"alpha", "t1", "p1", 1⟩)] } }
        [] (ActionResult.jobRes jAlpha)).store.records "alpha" = some jAlpha := by
  exact c7_update_backward_restores
    { baseWorld with store := { emptyStore with records := [("alpha", ⟨"alpha", "t1", "p1", 1⟩)] } }
    [] jAlpha ⟨"alpha", "t1", "p1", 1⟩ rfl rfl rfl rfl

/-- C10: the user-quota step's backward resolves the email recorded in
its own forward result through the directory; when that lookup fails it
silently skips the decrement, leaving the whole world — in particular the
charged user-quota counter — unchanged. -/
theorem c10_user_backward_skips_on_lookup_failure (w : World) (params : List Param)
    (m : List (String × String)) (e : String) (err : JobError)
    (he : alookup m "user" = some e)
    (herr : getUserByEmail w.dir e = .error err) :
    reserveUserCronjobBackward w params (.mapRes m) = w
      ∧ (reserveUserCronjobBackward w params (.mapRes m)).userQuota.usageOf e
          = w.userQuota.usageOf e := by
  have hw : reserveUserCronjobBackward w params (.mapRes m) = w := by
    simp [reserveUserCronjobBackward, he, herr]
  exact ⟨hw, by rw [hw]⟩

/-- Witness for C10: a recorded email absent from the directory leaves a
charged counter charged. -/
theorem c10_user_backward_skips_witness :
    reserveUserCronjobBackward
        { baseWorld with userQuota := ⟨[("bob", 1)], []⟩ } []
        (.mapRes [("job", "alpha"), ("user", "bob")])
      = { baseWorld with userQuota := ⟨[("bob", 1)], []⟩ } := by
  exact (c10_user_backward_skips_on_lookup_failure
    { baseWorld with userQuota := ⟨[("bob", 1)], []⟩ } []
    [("job", "alpha"), ("user", "bob")] "bob" JobError.userNotFound rfl rfl).1

/-- Decrementing never fails and moves exactly the named entity's counter
down by one, leaving every other entity's counter unchanged. -/
theorem ledger_dec (l : Ledger) (k : String) :
    (l.inc k (-1)).2 = none
      ∧ (l.inc k (-1)).1.usageOf k = l.usageOf k - 1
      ∧ (∀ k2, k2 ≠ k → (l.inc k (-1)).1.usageOf k2 = l.usageOf k2) := by
  have hover : (decide ((0 : Int) < -1) &&
      (match alookup l.limit k with
       | some lim => decide (lim < l.usageOf k + -1)
       | none => false)) = false := by
    simp
  refine ⟨?_, ?_, ?_⟩
  · simp [Ledger.inc, hover]
  · simp only [Ledger.inc, hover, Bool.false_eq_true, if_false]
    show (alookup (aset l.usage k (l.usageOf k + -1)) k).getD 0 = l.usageOf k - 1
    rw [alookup_aset_self]
    simp [Int.sub_eq_add_neg]
  · intro k2 hk2
    simp only [Ledger.inc, hover, Bool.false_eq_true, if_false]
    show (alookup (aset l.usage k (l.usageOf k + -1)) k2).getD 0 = l.usageOf k2
    rw [alookup_aset_ne _ _ _ _ hk2]
    rfl

/-- C6: for both reservation steps, the backward operation decrements the
usage counter by exactly one, and only for the entity recorded in that
step's own forward result: the team backward moves the recorded team's
counter down by one and no other team's; the user backward moves the
recorded (directory-resolved) email's counter down by one and no other
user's; and when the recorded map carries no team (resp. user) key the
backward changes nothing at all. -/
theorem c6_backward_decrements_only_recorded (w : World) (params : List Param) :
    (∀ (m : List (String × String)) (t : String),
        alookup m "team" = some t →
          (reserveTeamCronjobBackward w params (.mapRes m)).teamQuota.usageOf t
              = w.teamQuota.usageOf t - 1
            ∧ (∀ t2, t2 ≠ t →
                (reserveTeamCronjobBackward w params (.mapRes m)).teamQuota.usageOf t2
                  = w.teamQuota.usageOf t2)
            ∧ (reserveTeamCronjobBackward w params (.mapRes m)).userQuota = w.userQuota)
      ∧ (∀ (m : List (String × String)), alookup m "team" = none →
          reserveTeamCronjobBackward w params (.mapRes m) = w)
      ∧ (∀ (m : List (String × String)) (e : String) (u : User),
          alookup m "user" = some e → getUserByEmail w.dir e = .ok u →
            (reserveUserCronjobBackward w params (.mapRes m)).userQuota.usageOf e
                = w.userQuota.usageOf e - 1
              ∧ (∀ e2, e2 ≠ e →
                  (reserveUserCronjobBackward w params (.mapRes m)).userQuota.usageOf e2
                    = w.userQuota.usageOf e2)
              ∧ (reserveUserCronjobBackward w params (.mapRes m)).teamQuota = w.teamQuota)
      ∧ (∀ (m : List (String × String)), alookup m "user" = none →
          reserveUserCronjobBackward w params (.mapRes m) = w) := by
  refine ⟨?_, ?_, ?_, ?_⟩
  · intro m t ht
    have hb : reserveTeamCronjobBackward w params (.mapRes m)
        = { w with teamQuota := (w.teamQuota.inc t (-1)).1 } := by
      simp [reserveTeamCronjobBackward, ht]
    rw [hb]
    exact ⟨(ledger_dec w.teamQuota t).2.1, fun t2 h2 => (ledger_dec w.teamQuota t).2.2 t2 h2, rfl⟩
  · intro m ht
    simp [reserveTeamCronjobBackward, ht]
  · intro m e u he hu
    have hemail : u.email = e := getUserByEmail_email w.dir e u hu
    have hb : reserveUserCronjobBackward w params (.mapRes m)
        = { w with userQuota := (w.userQuota.inc e (-1)).1 } := by
      simp [reserveUserCronjobBackward, he, hu, hemail]
    rw [hb]
    exact ⟨(ledger_dec w.userQuota e).2.1, fun e2 h2 => (ledger_dec w.userQuota e).2.2 e2 h2, rfl⟩
  · intro m he
    simp [reserveUserCronjobBackward, he]

/-- Witness for C6: at a concrete world with both counters at 2, the team
backward takes the recorded team from 2 to 1 and leaves the other team
and the user ledger alone. -/
theorem c6_backward_decrements_witness :
    (reserveTeamCronjobBackward
        { baseWorld with teamQuota := ⟨[("t1", 2), ("t2", 2)], []⟩ } []
        (.mapRes [("job", "alpha"), ("team", "t1")])).teamQuota.usageOf "t1" = 1
      ∧ (reserveTeamCronjobBackward
          { baseWorld with teamQuota := ⟨[("t1", 2), ("t2", 2)], []⟩ } []
          (.mapRes [("job", "alpha"), ("team", "t1")])).teamQuota.usageOf "t2" = 2 := by
  have h := (c6_backward_decrements_only_recorded
    { baseWorld with teamQuota := ⟨[("t1", 2), ("t2", 2)], []⟩ } []).1
    [("job", "alpha"), ("team", "t1")] "t1" rfl
  refine ⟨h.1.trans (by decide), (h.2.1 "t2" (by decide)).trans (by decide)⟩

/-- C3: when the store's read of the job's name returns a record
structurally identical to the new one, `updateJobDB` issues no write (the
write counter and the records are untouched) and returns success; and a
write is only ever issued when the read succeeded with a record that
differs from the new one. -/
theorem c3_identical_update_no_write (s : StoreState) (j : Job)
    (hc : s.collectionFault = false) :
    ((getByName s j.name).2 = .ok j →
        updateJobDB s j = ((getByName s j.name).1, none)
          ∧ (updateJobDB s j).1.writeCount = s.writeCount
          ∧ (updateJobDB s j).1.records = s.records)
      ∧ ((updateJobDB s j).1.writeCount ≠ s.writeCount →
          ∃ old, (getByName s j.name).2 = .ok old ∧ old ≠ j) := by
  constructor
  · intro hok
    cases hg : getByName s j.name with
    | mk s1 r =>
        rw [hg] at hok
        simp only at hok
        subst hok
        have heq : updateJobDB s j = (s1, none) := by
          unfold updateJobDB
          rw [hc]
          simp only [Bool.false_eq_true, if_false, hg]
          simp
        refine ⟨heq.trans rfl, ?_, ?_⟩
        · rw [heq]
          have hw := (getByName_effects s j.name).1
          rw [hg] at hw
          exact hw
        · rw [heq]
          have hr := (getByName_effects s j.name).2.1
          rw [hg] at hr
          exact hr
  · intro hwc
    cases hg : getByName s j.name with
    | mk s1 r =>
        have hs1wc : s1.writeCount = s.writeCount := by
          have hw := (getByName_effects s j.name).1
          rw [hg] at hw
          exact hw
        cases r with
        | error e =>
            exfalso
            apply hwc
            unfold updateJobDB
            rw [hc]
            simp only [Bool.false_eq_true, if_false, hg]
            exact hs1wc
        | ok old =>
            by_cases heq : old = j
            · exfalso
              apply hwc
              unfold updateJobDB
              rw [hc]
              simp only [Bool.false_eq_true, if_false, hg]
              rw [if_pos heq]
              exact hs1wc
            · exact ⟨old, rfl, heq⟩

/-- Witness for C3: updating `alpha` with the very record already stored
leaves the write counter at zero and succeeds. -/
theorem c3_identical_update_no_write_witness :
    updateJobDB { emptyStore with records := [("alpha", jAlpha)] } jAlpha
        = ({ emptyStore with records := [("alpha", jAlpha)] }, none)
      ∧ (updateJobDB { emptyStore with records := [("alpha", jAlpha)] } jAlpha).1.writeCount
          = 0 := by
  have h := (c3_identical_update_no_write
    { emptyStore with records := [("alpha", jAlpha)] } jAlpha rfl).1 rfl
  exact ⟨h.1, h.2.1⟩

/-- C4: under a functioning lookup (no injected read fault, collection
available), `insertJobDB` fails with already-exists exactly when a record
with the job's name is present; when the lookup fails with anything other
than not-found, that error is propagated and no insert happens (the store
after the call is exactly the post-read store); and the write counter
moves — an insert is issued — only when the lookup reported not-found,
in which case (absent an insert fault) the record is actually inserted. -/
theorem c4_insert_semantics (s : StoreState) (j : Job)
    (hc : s.collectionFault = false) :
    (s.readFaults = [] →
        ((insertJobDB s j).2 = some .jobAlreadyExists
          ↔ (alookup s.records j.name).isSome = true))
      ∧ (∀ s1 e, getByName s j.name = (s1, .error e) → e ≠ .jobNotFound →
          insertJobDB s j = (s1, some e))
      ∧ ((insertJobDB s j).1.writeCount ≠ s.writeCount →
          (getByName s j.name).2 = .error .jobNotFound)
      ∧ (∀ s1, getByName s j.name = (s1, .error .jobNotFound) → s.insertFault = false →
          (insertJobDB s j).2 = none
            ∧ alookup (insertJobDB s j).1.records j.name = some j) := by
  have hins : insertJobDB s j =
      (let p := getByName s j.name
       match p.2 with
       | .error .jobNotFound => insertOne p.1 j
       | .error e => (p.1, some e)
       | .ok _ => (p.1, some .jobAlreadyExists)) := by
    unfold insertJobDB
    rw [hc]
    simp only [Bool.false_eq_true, if_false]
  refine ⟨?_, ?_, ?_, ?_⟩
  · intro hrf
    have hg : getByName s j.name =
        (match alookup s.records j.name with
         | some x => (s, .ok x)
         | none => (s, .error .jobNotFound)) := by
      unfold getByName
      rw [hrf]
    cases hl : alookup s.records j.name with
    | none =>
        rw [hl] at hg
        rw [hins, hg]
        by_cases hf : s.insertFault
        · simp [insertOne, hf, hl]
        · simp [insertOne, hf, hl]
    | some x =>
        rw [hl] at hg
        rw [hins, hg]
        simp [hl]
  · intro s1 e hg he
    rw [hins, hg]
    cases e with
    | jobNotFound => exact absurd rfl he
    | jobAlreadyExists => rfl
    | storeError => rfl
    | collectionError => rfl
    | insertError => rfl
    | replaceError => rfl
    | provisionerError => rfl
    | driverError => rfl
    | quotaExceeded => rfl
    | userNotFound => rfl
    | fewParameters => rfl
    | invalidParam msg => rfl
  · intro hwc
    cases hg : getByName s j.name with
    | mk s1 r =>
        have hs1wc : s1.writeCount = s.writeCount := by
          have := (getByName_effects s j.name).1
          rw [hg] at this
          exact this
        cases r with
        | ok x =>
            exfalso
            apply hwc
            rw [hins, hg]
            exact hs1wc
        | error e =>
            cases e with
            | jobNotFound => rfl
            | jobAlreadyExists => exact absurd (by rw [hins, hg]; exact hs1wc) hwc
            | storeError => exact absurd (by rw [hins, hg]; exact hs1wc) hwc
            | collectionError => exact absurd (by rw [hins, hg]; exact hs1wc) hwc
            | insertError => exact absurd (by rw [hins, hg]; exact hs1wc) hwc
            | replaceError => exact absurd (by rw [hins, hg]; exact hs1wc) hwc
            | provisionerError => exact absurd (by rw [hins, hg]; exact hs1wc) hwc
            | driverError => exact absurd (by rw [hins, hg]; exact hs1wc) hwc
            | quotaExceeded => exact absurd (by rw [hins, hg]; exact hs1wc) hwc
            | userNotFound => exact absurd (by rw [hins, hg]; exact hs1wc) hwc
            | fewParameters => exact absurd (by rw [hins, hg]; exact hs1wc) hwc
            | invalidParam msg => exact absurd (by rw [hins, hg]; exact hs1wc) hwc
  · intro s1 hg hif
    have hif1 : s1.insertFault = false := by
      have hi := (getByName_effects s j.name).2.2.2.1
      rw [hg] at hi
      exact hi.trans hif
    rw [hins, hg]
    simp [insertOne, hif1, alookup]

/-- Witness for C4: inserting `alpha` into a store already holding a
record named `alpha` fails with already-exists. -/
theorem c4_insert_semantics_witness :
    (insertJobDB { emptyStore with records := [("alpha", jAlpha)] } jAlpha).2
        = some .jobAlreadyExists := by
  exact ((c4_insert_semantics { emptyStore with records := [("alpha", jAlpha)] }
    jAlpha rfl).1 rfl).mpr rfl

/-- A newer revision of the `alpha` job (differs from `jAlpha` only in
its payload). -/
def jAlphaV2 : Job := ⟨"alpha", "t1", "p1", 1⟩

/-- A fault-free store already holding the `alpha` record. -/
def stAlphaClean : StoreState := { emptyStore with records := [("alpha", jAlpha)] }

/-- A world whose store holds `alpha` but fails the next two reads — a
persistent read failure across the update step's read and the replace
helper's re-read. -/
def wPersistentReadFault : World :=
  { baseWorld with store := { stAlphaClean with readFaults := [true, true] } }

/-- A world whose store holds `alpha` and fails only the next read — a
transient read failure that has cleared by the replace helper's re-read. -/
def wTransientReadFault : World :=
  { baseWorld with store := { stAlphaClean with readFaults := [true] } }

/-- Counterexample to C2 as stated: in a world where reading the current
`alpha` record fails (and keeps failing), the update-store step's forward
operation returns the read error and issues no write at all — the write
counter stays at zero and the stored records are untouched — rather than
still attempting the write of the new record. -/
theorem c2_counterexample :
    (getByName wPersistentReadFault.store jAlphaV2.name).2 = .error .storeError
      ∧ (jobUpdateDBForward wPersistentReadFault [Param.jobP jAlphaV2]
            ActionResult.nothing).2 = .error .storeError
      ∧ (jobUpdateDBForward wPersistentReadFault [Param.jobP jAlphaV2]
            ActionResult.nothing).1.store.writeCount = 0
      ∧ (jobUpdateDBForward wPersistentReadFault [Param.jobP jAlphaV2]
            ActionResult.nothing).1.store.records = [("alpha", jAlpha)] :=
  ⟨rfl, rfl, rfl, rfl⟩

/-- C2 as amended: when the forward's initial read of the current record
fails, the step does not return that error directly but still runs the
store-replace helper, which performs its own read; if that re-read
succeeds with a record differing from the new one and the store accepts
the write, the write is issued (the write counter moves by one and the
new record lands in the store) and the step succeeds — recovering a
transient read failure — while if the re-read also fails, the step
returns that read error with no write issued. -/
theorem c2_amended_retry_semantics (w : World) (j : Job) (prev : ActionResult)
    (st1 : StoreState) (e : JobError)
    (h1 : getByName w.store j.name = (st1, .error e))
    (hc : st1.collectionFault = false) :
    (∀ st2 old, getByName st1 j.name = (st2, .ok old) → old ≠ j →
        st2.replaceFault = false →
          (jobUpdateDBForward w [Param.jobP j] prev).2 = .ok .nothing
            ∧ (jobUpdateDBForward w [Param.jobP j] prev).1.store.writeCount
                = w.store.writeCount + 1
            ∧ alookup (jobUpdateDBForward w [Param.jobP j] prev).1.store.records j.name
                = some j)
      ∧ (∀ st2 e2, getByName st1 j.name = (st2, .error e2) →
          (jobUpdateDBForward w [Param.jobP j] prev).2 = .error e2
            ∧ (jobUpdateDBForward w [Param.jobP j] prev).1.store.writeCount
                = w.store.writeCount) := by
  have hwc1 : st1.writeCount = w.store.writeCount := by
    have hw := (getByName_effects w.store j.name).1
    rw [h1] at hw
    exact hw
  constructor
  · intro st2 old hg2 hne hrf
    have hwc2 : st2.writeCount = st1.writeCount := by
      have hw := (getByName_effects st1 j.name).1
      rw [hg2] at hw
      exact hw
    have hupd : updateJobDB st1 j = replaceOne st2 j.name j := by
      unfold updateJobDB
      rw [hc]
      simp only [Bool.false_eq_true, if_false, hg2]
      rw [if_neg hne]
    have hrep : replaceOne st2 j.name j
        = ({ { st2 with writeCount := st2.writeCount + 1 } with
              records := areplace st2.records j.name j }, none) := by
      unfold replaceOne
      simp only [hrf, Bool.false_eq_true, if_false]
    have hfwd : jobUpdateDBForward w [Param.jobP j] prev
        = ({ w with store := { { st2 with writeCount := st2.writeCount + 1 } with
              records := areplace st2.records j.name j } }, .ok .nothing) := by
      unfold jobUpdateDBForward
      simp only [List.get?, h1, hupd, hrep]
    refine ⟨by rw [hfwd], ?_, ?_⟩
    · rw [hfwd]
      show st2.writeCount + 1 = w.store.writeCount + 1
      rw [hwc2, hwc1]
    · rw [hfwd]
      show alookup (areplace st2.records j.name j) j.name = some j
      exact alookup_areplace_self st2.records j.name j old
        (getByName_ok_lookup st1 j.name st2 old hg2)
  · intro st2 e2 hg2
    have hwc2 : st2.writeCount = st1.writeCount := by
      have hw := (getByName_effects st1 j.name).1
      rw [hg2] at hw
      exact hw
    have hupd : updateJobDB st1 j = (st2, some e2) := by
      unfold updateJobDB
      rw [hc]
      simp only [Bool.false_eq_true, if_false, hg2]
    have hfwd : jobUpdateDBForward w [Param.jobP j] prev
        = ({ w with store := st2 }, .error e2) := by
      unfold jobUpdateDBForward
      simp only [List.get?, h1, hupd]
    refine ⟨by rw [hfwd], ?_⟩
    rw [hfwd]
    show st2.writeCount = w.store.writeCount
    rw [hwc2, hwc1]

/-- Witness for the amended C2: in the transient-failure world the first
read of `alpha` fails, yet the step writes the new revision and
succeeds. -/
theorem c2_amended_retry_semantics_witness :
    (jobUpdateDBForward wTransientReadFault [Param.jobP jAlphaV2]
          ActionResult.nothing).2 = .ok .nothing
      ∧ (jobUpdateDBForward wTransientReadFault [Param.jobP jAlphaV2]
            ActionResult.nothing).1.store.writeCount = 1
      ∧ alookup (jobUpdateDBForward wTransientReadFault [Param.jobP jAlphaV2]
            ActionResult.nothing).1.store.records "alpha" = some jAlphaV2 := by
  have h := (c2_amended_retry_semantics wTransientReadFault jAlphaV2
      ActionResult.nothing stAlphaClean JobError.storeError rfl rfl).1
    stAlphaClean jAlpha rfl (by decide) rfl
  exact ⟨h.1, h.2.1, h.2.2⟩

/-- C8: the trigger pipeline is the single `trigger-cronjob` action; that
action defines no backward operation; its forward operation records
exactly one driver trigger call carrying the job and the job's own pool
(once the provisioner resolves); and executing the trigger pipeline
produces an empty compensation trace regardless of parameters, world or
the trigger call's outcome. -/
theorem c8_trigger_single_action :
    triggerPipeline = [triggerCron]
      ∧ triggerCron.backward = none
      ∧ (∀ (w : World) (j : Job) (rest : List Param) (prev : ActionResult),
          w.prov.resolveFault = false →
            (triggerCron.forward w (Param.jobP j :: rest) prev).1.prov.triggerCalls
              = w.prov.triggerCalls ++ [(j, j.pool)])
      ∧ (∀ (params : List Param) (w : World),
          (execute triggerPipeline params w).2.2 = []) := by
  refine ⟨rfl, rfl, ?_, ?_⟩
  · intro w j rest prev hres
    show (triggerCronForward w (Param.jobP j :: rest) prev).1.prov.triggerCalls
      = w.prov.triggerCalls ++ [(j, j.pool)]
    unfold triggerCronForward
    simp only [List.get?, hres, Bool.false_eq_true, if_false]
    by_cases ht : w.prov.triggerFault
    · simp [ht]
    · simp [ht]
  · intro params w
    by_cases hv : (triggerPipeline.any (fun a => params.length < a.minParams)) = true
    · simp [execute, hv]
    · simp only [Bool.not_eq_true] at hv
      simp only [execute, hv, Bool.false_eq_true, if_false]
      cases hf : triggerCron.forward w params ActionResult.nothing with
      | mk w1 r =>
          cases r with
          | error e => simp [triggerPipeline, runForward, hf, rollback]
          | ok res => simp [triggerPipeline, runForward, hf]

/-- Witness for C8: a concrete trigger whose driver call fails still
records the single trigger call with the job and pool, and the pipeline
performs no compensation. -/
theorem c8_trigger_single_action_witness :
    (triggerCron.forward
          { baseWorld with prov := { emptyProv with triggerFault := true } }
          [Param.jobP jAlpha] ActionResult.nothing).1.prov.triggerCalls
        = [(jAlpha, "p1")]
      ∧ (execute triggerPipeline [Param.jobP jAlpha]
          { baseWorld with prov := { emptyProv with triggerFault := true } }).2.2 = [] := by
  have h := c8_trigger_single_action
  exact ⟨(h.2.2.1 { baseWorld with prov := { emptyProv with triggerFault := true } }
      jAlpha [] ActionResult.nothing rfl).trans rfl,
    h.2.2.2 [Param.jobP jAlpha]
      { baseWorld with prov := { emptyProv with triggerFault := true } }⟩

end Tsuru
